import Mathlib

/-!
Verification development for the OpusDeiTradeMetaL core: a shallow embedding
of the price-fusion engine (`src/collectors/prices.py`), the technical-level
engine (`src/collectors/technical.py`) and the alert pipeline
(`src/processors/alerts.py`), together with proofs of the behavioural
properties stated in the specification.

Modelling conventions:
- Python floats are modelled as rationals (`ℚ`); note that in `ℚ` division by
  zero yields `0`, which coincides with the code's explicit `if old_price`
  zero-guards.
- `datetime` timestamps are modelled as integers (epoch minutes for the price
  collector, epoch seconds for the alert processor); `timedelta` arithmetic
  becomes integer arithmetic.
- Python `dict`s are modelled as association lists in insertion/iteration
  order; `dict.get` is association-list lookup.
- `str.upper()` is modelled by `strUpper` (character-wise upper-casing).
- The MD5 fingerprint `md5(f"[content]:[hour_key]")` of
  `AlertProcessor._generate_hash` is modelled as the injective pairing of the
  content string with the hour bucket, and the `strftime("%Y%m%d%H")` hour
  key is modelled as the epoch hour number `now / 3600`.
- `list.sort` / `sorted` are modelled by the stable `List.mergeSort`, which
  matches CPython's stable sort.
-/

namespace OpusDei

/-- Character-wise upper-casing; model of Python `str.upper()` for the
(ASCII) instrument codes used throughout the repository. -/
def strUpper (s : String) : String := ⟨s.data.map Char.toUpper⟩

/-! ## Price fusion engine (src/collectors/prices.py) -/

/-- Embedding of the `PriceData` dataclass (src/collectors/prices.py lines
36-54), restricted to the fields read by the collector operations verified
here (`metal`, `price`, `change_percent`, `source`, `timestamp`,
`reliability`); the remaining optional market-data fields (bid/ask/high/low/
open/volume/spread, currency, unit) are carried by the dataclass but never
inspected by validation, merging or alerting. -/
structure PriceData where
  metal : String
  price : ℚ
  changePercent : ℚ
  source : String
  timestamp : ℤ
  reliability : ℤ
deriving DecidableEq, Repr

/-- The `self.price_limits` table from `PriceCollector.__init__`
(src/collectors/prices.py lines 808-821): admissible price band per
instrument code; `none` for codes absent from the table. -/
def priceLimits (metal : String) : Option (ℚ × ℚ) :=
  if metal = "XAU" then some (1000, 5000)
  else if metal = "XAG" then some (10, 100)
  else if metal = "XPT" then some (500, 2000)
  else if metal = "XPD" then some (500, 3000)
  else if metal = "XCU" then some (2, 10)
  else if metal = "XAL" then some (1000, 5000)
  else if metal = "XNI" then some (10000, 50000)
  else if metal = "XPB" then some (1000, 5000)
  else if metal = "XZN" then some (1500, 6000)
  else if metal = "XSN" then some (15000, 50000)
  else if metal = "UX" then some (20, 200)
  else if metal = "FE" then some (50, 300)
  else none

/-- Embedding of `PriceCollector._validate_price` (src/collectors/prices.py
lines 849-876): reject exactly when the instrument has a configured band and
the price falls outside it.  The `abs(change_percent) > 20` "suspicious
variation" check only emits a log warning ("Não rejeita, só avisa") and
therefore does not influence the result. -/
def validatePrice (priceData : PriceData) : Bool :=
  match priceLimits priceData.metal with
  | none => true
  | some (minPrice, maxPrice) =>
    if ¬ (minPrice ≤ priceData.price ∧ priceData.price ≤ maxPrice) then false
    else true

/-- Association-list lookup, the model of `merged[code]` /
`code in merged` on the Python dict built by `_merge_prices`. -/
def lookupCode (m : List (String × PriceData)) (code : String) : Option PriceData :=
  match m with
  | [] => none
  | (c, p) :: rest => if c = code then some p else lookupCode rest code

/-- Association-list update, the model of `merged[code] = price_data`:
replace in place when the key exists, append otherwise. -/
def setCode (m : List (String × PriceData)) (code : String) (priceData : PriceData) :
    List (String × PriceData) :=
  match m with
  | [] => [(code, priceData)]
  | (c, p) :: rest =>
    if c = code then (c, priceData) :: rest else (c, p) :: setCode rest code priceData

/-- One iteration of the inner loop of `PriceCollector._merge_prices`
(src/collectors/prices.py lines 886-903): skip invalid observations, insert
first observations, replace on strictly higher reliability, or on equal
reliability and strictly later timestamp. -/
def mergeStep (m : List (String × PriceData)) (entry : String × PriceData) :
    List (String × PriceData) :=
  let code := entry.1
  let priceData := entry.2
  if validatePrice priceData = false then m
  else
    match lookupCode m code with
    | none => setCode m code priceData
    | some existing =>
      if existing.reliability < priceData.reliability then setCode m code priceData
      else if priceData.reliability = existing.reliability ∧
          existing.timestamp < priceData.timestamp then setCode m code priceData
      else m

/-- Embedding of `PriceCollector._merge_prices` (src/collectors/prices.py
lines 878-905): fold `mergeStep` over every observation of every source
result, in iteration order, starting from the empty dict. -/
def mergePrices (allResults : List (List (String × PriceData))) :
    List (String × PriceData) :=
  allResults.foldl (fun m result => result.foldl mergeStep m) []

/-- The per-instrument projection of `mergeStep`: how the slot for one fixed
code evolves when one observation is processed (used to reason about
`mergePrices` one instrument at a time). -/
def mergeOne (acc : Option PriceData) (priceData : PriceData) : Option PriceData :=
  if validatePrice priceData = false then acc
  else
    match acc with
    | none => some priceData
    | some existing =>
      if existing.reliability < priceData.reliability then some priceData
      else if priceData.reliability = existing.reliability ∧
          existing.timestamp < priceData.timestamp then some priceData
      else some existing

/-- The surviving (validated) observations of a fusion cycle for one
instrument code, in iteration order. -/
def survivorsFor (allResults : List (List (String × PriceData))) (code : String) :
    List PriceData :=
  ((allResults.flatten.filter (fun e => e.1 = code)).map Prod.snd).filter
    (fun priceData => validatePrice priceData = true)

/-- `IsBest o s` says that `o` is the fusion outcome the specification
demands for the surviving observation list `s`: nothing when `s` is empty,
otherwise a member of `s` of maximal reliability whose timestamp is maximal
among the members of that top reliability. -/
def IsBest (o : Option PriceData) (s : List PriceData) : Prop :=
  match o with
  | none => s = []
  | some priceData =>
    priceData ∈ s ∧ ∀ q ∈ s, q.reliability ≤ priceData.reliability ∧
      (q.reliability = priceData.reliability → q.timestamp ≤ priceData.timestamp)

/-- State of a `PriceCollector` as read by `calculate_change`,
`get_last_price` and `check_price_alerts`: the in-memory
`price_history` (per code, `(timestamp, price)` pairs in append order),
the `last_prices` cache, and the current clock (`datetime.utcnow()`,
in epoch minutes). -/
structure CollectorState where
  priceHistory : String → List (ℤ × ℚ)
  lastPrices : String → Option PriceData
  now : ℤ

/-- Embedding of `PriceCollector.calculate_change` (src/collectors/prices.py
lines 962-989): `None` when the history is empty or no point lies at or
before `now - minutes`; otherwise `(change_percent, change_value)` from the
last point at or before the cutoff to the last history point.  The code
guards `change_percent` with `if old_price`, returning `0` for a zero old
price — which agrees with `ℚ` division by zero. -/
def calculateChange (st : CollectorState) (metal : String) (minutes : ℤ) :
    Option (ℚ × ℚ) :=
  let history := st.priceHistory (strUpper metal)
  match history.getLast? with
  | none => none
  | some current =>
    let cutoff := st.now - minutes
    match (history.filter (fun p => p.1 ≤ cutoff)).getLast? with
    | none => none
    | some old =>
      let changeValue := current.2 - old.2
      some (if old.2 ≠ 0 then changeValue / old.2 * 100 else 0, changeValue)

/-- Embedding of `PriceCollector.get_last_price` (src/collectors/prices.py
lines 954-956). -/
def getLastPrice (st : CollectorState) (metal : String) : Option PriceData :=
  st.lastPrices (strUpper metal)

/-- The `AlertLevel` enum (src/config/settings.py lines 70-73), in
declaration order (which is also Python's enum iteration order). -/
inductive AlertLevel where
  | critico
  | importante
  | info
deriving DecidableEq, Repr

/-- The `ALERT_THRESHOLDS` table (src/config/settings.py lines 76-89):
`(timeframe_minutes, percent_change)` per alert level. -/
def alertThresholds : AlertLevel → ℤ × ℚ
  | .critico => (15, 2)
  | .importante => (60, 1)
  | .info => (1440, 1/2)

/-- Iteration order of `for level in AlertLevel`: enum declaration order. -/
def alertLevelOrder : List AlertLevel := [.critico, .importante, .info]

/-- The keys of the `METAIS` dict (src/config/settings.py lines 39-57), in
insertion order, as iterated by `check_price_alerts`. -/
def metaisKeys : List String :=
  ["XAU", "XAG", "XPT", "XPD", "XCU", "XAL", "XNI", "XPB", "XZN", "XSN", "UX", "FE"]

/-- One candidate dict appended by `check_price_alerts`
(src/collectors/prices.py lines 1012-1019). -/
structure PriceAlertCand where
  level : AlertLevel
  metal : String
  changePercent : ℚ
  changeValue : ℚ
  currentPrice : ℚ
  timeframeMinutes : ℤ
deriving DecidableEq, Repr

/-- The loop body of `PriceCollector.check_price_alerts` for one instrument
and one alert level (src/collectors/prices.py lines 1002-1019): the level
contributes a candidate exactly when the change over its configured
timeframe is available, its absolute percent change meets the level's
threshold, and a last price exists for the instrument. -/
def priceAlertForLevel (st : CollectorState) (metal : String) (level : AlertLevel) :
    Option PriceAlertCand :=
  let minutes := (alertThresholds level).1
  let percent := (alertThresholds level).2
  match calculateChange st metal minutes with
  | none => none
  | some (changePercent, changeValue) =>
    if percent ≤ |changePercent| then
      match getLastPrice st metal with
      | none => none
      | some current =>
        some ⟨level, metal, changePercent, changeValue, current.price, minutes⟩
    else none

/-- The inner loop of `PriceCollector.check_price_alerts` for one
instrument (src/collectors/prices.py lines 1001-1019): every alert level is
evaluated, in enum order. -/
def priceAlertsForMetal (st : CollectorState) (metal : String) : List PriceAlertCand :=
  alertLevelOrder.filterMap (priceAlertForLevel st metal)

/-- Embedding of `PriceCollector.check_price_alerts` (src/collectors/prices.py
lines 991-1021): the outer loop over `METAIS.keys()`. -/
def checkPriceAlerts (st : CollectorState) : List PriceAlertCand :=
  metaisKeys.flatMap (priceAlertsForMetal st)

/-! ## Technical level engine (src/collectors/technical.py) -/

/-- The `LevelType` enum (src/collectors/technical.py lines 19-21). -/
inductive LevelType where
  | suporte
  | resistencia
deriving DecidableEq, Repr

/-- Embedding of the `TechnicalLevel` dataclass (src/collectors/technical.py
lines 24-43), without the unused `last_touch` field. -/
structure TechnicalLevel where
  metal : String
  levelType : LevelType
  name : String
  value : ℚ
  strength : ℕ
  touches : ℕ
deriving DecidableEq, Repr

/-- Crossing direction reported by `check_level_breaks`
(`"up"` / `"down"`). -/
inductive BreakDirection where
  | up
  | down
deriving DecidableEq, Repr

/-- Embedding of `TechnicalAnalyzer.check_level_breaks`
(src/collectors/technical.py lines 317-336), as a function of the stored
level list for the metal: a level is reported with direction `up` when
`previous_price < value <= current_price` and with direction `down` when
`previous_price > value >= current_price`.  The constant fields of the
emitted dict (metal, current and previous price) are left implicit; each
report is the `(level, direction)` pair. -/
def checkLevelBreaks (levels : List TechnicalLevel) (currentPrice previousPrice : ℚ) :
    List (TechnicalLevel × BreakDirection) :=
  levels.filterMap (fun level =>
    if previousPrice < level.value ∧ level.value ≤ currentPrice then
      some (level, .up)
    else if previousPrice > level.value ∧ level.value ≥ currentPrice then
      some (level, .down)
    else none)

/-- The local-extrema pass of `TechnicalAnalyzer.find_multiple_touches`
(src/collectors/technical.py lines 131-137): the samples at positions
`1 .. len-2` strictly greater than both neighbours, or strictly less than
both neighbours, in index order. -/
def localExtremes (prices : List ℚ) : List ℚ :=
  (List.range' 1 (prices.length - 2)).filterMap (fun i =>
    let prev := prices.getD (i - 1) 0
    let cur := prices.getD i 0
    let next := prices.getD (i + 1) 0
    if cur > prev ∧ cur > next then some cur
    else if cur < prev ∧ cur < next then some cur
    else none)

/-- The greedy clustering step of `find_multiple_touches`
(src/collectors/technical.py lines 145-155): scan the existing groups in
order; the extreme joins the first group whose running mean it is within
tolerance of, otherwise it opens a new group at the end. -/
def insertIntoGroups (tolerance : ℚ) (groups : List (List ℚ)) (extreme : ℚ) :
    List (List ℚ) :=
  match groups with
  | [] => [[extreme]]
  | g :: gs =>
    let avg := g.sum / (g.length : ℚ)
    if |extreme - avg| / avg ≤ tolerance then (g ++ [extreme]) :: gs
    else g :: insertIntoGroups tolerance gs extreme

/-- Embedding of `TechnicalAnalyzer.find_multiple_touches`
(src/collectors/technical.py lines 125-163): collect the local extrema,
cluster them in ascending order with tolerance `tolerance_percent / 100`,
keep the clusters with at least two members as `(mean, member count)`
levels, and sort those by member count, descending. -/
def findMultipleTouches (prices : List ℚ) (tolerancePercent : ℚ) : List (ℚ × ℕ) :=
  if prices.isEmpty then []
  else
    let extremes := localExtremes prices
    if extremes.isEmpty then []
    else
      let tolerance := tolerancePercent / 100
      let groups := (extremes.mergeSort (fun a b => a ≤ b)).foldl
        (insertIntoGroups tolerance) []
      let levels := (groups.filter (fun g => 2 ≤ g.length)).map
        (fun g => (g.sum / (g.length : ℚ), g.length))
      levels.mergeSort (fun x y => y.2 ≤ x.2)

/-- The multi-touch section of `TechnicalAnalyzer.update_levels_for_metal`
(src/collectors/technical.py lines 264-273): run `find_multiple_touches`
with its default tolerance `0.5` over the last 480 history prices, keep the
top three levels, and wrap each as a `TechnicalLevel` with
`strength = min(touches, 5)`, classified against the current price. -/
def multiTouchLevels (metal : String) (currentPrice : ℚ) (prices : List ℚ) :
    List TechnicalLevel :=
  let prices5d := prices.drop (prices.length - 480)
  let multiTouch := findMultipleTouches prices5d (1/2)
  ((multiTouch.take 3).enum).map (fun p =>
    { metal := metal
      levelType := if currentPrice > p.2.1 then LevelType.suporte else LevelType.resistencia
      name := "multi_touch_" ++ toString (p.1 + 1)
      value := p.2.1
      strength := min p.2.2 5
      touches := p.2.2 })

/-! ## Alert pipeline (src/processors/alerts.py) -/

/-- An alert fingerprint: the MD5 hash of `"[content]:[hour_key]"` is
modelled as the (injective) pair of its two pre-image components. -/
abbrev Fingerprint := String × ℤ

/-- Embedding of `AlertProcessor._generate_hash` (src/processors/alerts.py
lines 82-86): the content key combined with the current hour bucket
(`strftime("%Y%m%d%H")`, modelled as the epoch hour `now / 3600` with `now`
in epoch seconds). -/
def generateHash (content : String) (now : ℤ) : Fingerprint :=
  (content, now / 3600)

/-- Embedding of the `Alert` dataclass (src/processors/alerts.py lines
28-42), without the free-form `context` dict (never read by queueing or
dispatch). -/
structure Alert where
  level : AlertLevel
  alertType : String
  metal : Option String
  message : String
  contentHash : Fingerprint
  priority : ℤ
  requiresLLM : Bool
deriving DecidableEq, Repr

/-- State of an `AlertProcessor` as read and written by `queue_alert` and
`process_queue`: the in-memory queue, the durable sent-ledger
(`is_alert_sent` / `mark_alert_sent`, by fingerprint), the user
configuration (`filtros`, `alertas_ativos`, `silenciado_ate`), the clock
(`utcnow()`, epoch seconds), the rolling-hour rate-limit counter, and a
log of the alerts handed to the send callback, in dispatch order. -/
structure ProcState where
  queue : List Alert
  ledger : List Fingerprint
  filtros : List String
  ativos : Bool
  silenciadoAte : Option ℤ
  now : ℤ
  alertsSentThisHour : ℕ
  hourStart : ℤ
  sentLog : List Alert
deriving DecidableEq, Repr

/-- Embedding of `AlertProcessor._should_filter_metal`
(src/processors/alerts.py lines 104-109): with an empty filter list nothing
is filtered; otherwise a metal is filtered exactly when its upper-cased code
is not among the upper-cased filter entries. -/
def shouldFilterMetal (st : ProcState) (metal : String) : Bool :=
  if st.filtros.isEmpty then false
  else !((st.filtros.map strUpper).contains (strUpper metal))

/-- Embedding of `self.db.is_alert_sent(content_hash)`: a membership test
against the modelled ledger. -/
def isAlertSent (st : ProcState) (fp : Fingerprint) : Bool :=
  decide (fp ∈ st.ledger)

/-- The filter test applied by `queue_alert` (src/processors/alerts.py line
382): `alert.metal` must be truthy (a non-empty string) for the metal filter
to apply at all. -/
def alertFiltered (st : ProcState) (a : Alert) : Bool :=
  match a.metal with
  | none => false
  | some m => if m = "" then false else shouldFilterMetal st m

/-- Embedding of `AlertProcessor.queue_alert` (src/processors/alerts.py
lines 374-392): drop filtered candidates, drop candidates whose fingerprint
is already in the sent-ledger, append the rest to the queue.  (The
`alert is None` guard is subsumed by typing.) -/
def queueAlert (st : ProcState) (a : Alert) : ProcState :=
  if alertFiltered st a then st
  else if isAlertSent st a.contentHash then st
  else { st with queue := st.queue ++ [a] }

/-- Embedding of `AlertProcessor._is_silenced` (src/processors/alerts.py
lines 88-102): silenced when the global switch is off, or when a
silenced-until timestamp exists and lies in the future.  (The
`fromisoformat` parse-failure branch is subsumed by the typed
`silenciadoAte` field.) -/
def isSilenced (st : ProcState) : Bool :=
  if !st.ativos then true
  else
    match st.silenciadoAte with
    | some untilTime => if st.now < untilTime then true else false
    | none => false

/-- Embedding of `AlertProcessor._check_rate_limit` (src/processors/alerts.py
lines 111-121): reset the counter when an hour has elapsed since
`hour_start`, then allow dispatch while fewer than 50 alerts were sent this
hour.  Returns the verdict together with the (possibly reset) state. -/
def checkRateLimitStep (st : ProcState) : Bool × ProcState :=
  let st2 :=
    if 3600 ≤ st.now - st.hourStart then
      { st with alertsSentThisHour := 0, hourStart := st.now }
    else st
  (st2.alertsSentThisHour < 50, st2)

/-- Stable descending-priority comparison used to model
`self.alert_queue.sort(key=lambda x: x.priority, reverse=True)`. -/
def prioDesc (a b : Alert) : Bool := b.priority ≤ a.priority

/-- The drain loop of `AlertProcessor.process_queue`
(src/processors/alerts.py lines 409-434), parameterised by the send
callback's success (`sendOk`): while the rate limit allows, pop the front
alert and attempt dispatch; on success record the fingerprint in the
sent-ledger and bump the hourly counter; on failure only log (the popped
alert is not re-queued and its fingerprint is not recorded).  LLM
enrichment only decorates the alert context and never blocks dispatch, so
it is modelled as the identity. -/
def drainQueue (sendOk : Alert → Bool) : List Alert → ProcState → ProcState
  | [], st => { st with queue := [] }
  | a :: rest, st =>
    let step := checkRateLimitStep st
    if step.1 = false then { step.2 with queue := a :: rest }
    else if sendOk a then
      drainQueue sendOk rest
        { step.2 with
            ledger := step.2.ledger ++ [a.contentHash]
            alertsSentThisHour := step.2.alertsSentThisHour + 1
            sentLog := step.2.sentLog ++ [a] }
    else drainQueue sendOk rest step.2

/-- Embedding of `AlertProcessor.process_queue` (src/processors/alerts.py
lines 394-434): return unchanged on an empty queue; when silenced, clear the
whole queue without dispatching; otherwise sort the queue by descending
priority and drain it. -/
def processQueue (sendOk : Alert → Bool) (st : ProcState) : ProcState :=
  if st.queue.isEmpty then st
  else if isSilenced st then { st with queue := [] }
  else drainQueue sendOk (st.queue.mergeSort prioDesc) { st with queue := [] }

/-! ## Concrete fixtures used by counterexamples and witnesses -/

/-- A fused last-price entry for gold, price 1030. -/
def pdXau1030 : PriceData :=
  { metal := "XAU", price := 1030, changePercent := 3, source := "metals.live"
    timestamp := 0, reliability := 95 }

/-- Collector state whose gold history moved from 1000 to 1030 within the
last 15 minutes, with an old anchor point 1500 minutes back, so that all
three alert tiers see a change of +3%. -/
def c3State : CollectorState :=
  { priceHistory := fun m =>
      if m = "XAU" then [(-1500, 1000), (-16, 1000), (0, 1030)] else []
    lastPrices := fun m => if m = "XAU" then some pdXau1030 else none
    now := 0 }

/-- Collector state with a two-point gold history, used to instantiate the
`calculate_change` contract. -/
def c4State : CollectorState :=
  { priceHistory := fun m => if m = "XAU" then [(0, 100), (10, 110)] else []
    lastPrices := fun _ => none
    now := 20 }

/-- A stored resistance level at exactly 20, used at the boundary of
`check_level_breaks`. -/
def c8Level : TechnicalLevel :=
  { metal := "XAU", levelType := .resistencia, name := "pivot_r1", value := 20
    strength := 2, touches := 0 }

/-- The synthetic multi-touch series: maxima 1000 and 1002 (within the 0.5%
tolerance of each other) plus the isolated maximum 1500; the plateau pairs
keep the interior valleys from being strict minima. -/
def c9Series : List ℚ := [0, 1000, 500, 500, 1002, 600, 600, 1500, 0]

/-- A minimal alert fixture (fingerprint `("k", 0)`). -/
def w5Alert : Alert :=
  { level := .info, alertType := "price", metal := none, message := "m"
    contentHash := ("k", 0), priority := 1, requiresLLM := false }

/-- A quiescent processor state: empty queue and ledger, alerts enabled,
nothing silenced, rate-limit window fresh. -/
def w5State : ProcState :=
  { queue := [], ledger := [], filtros := [], ativos := true
    silenciadoAte := none, now := 0, alertsSentThisHour := 0, hourStart := 0
    sentLog := [] }

/-- The same state after `w5Alert`'s fingerprint was recorded as sent. -/
def w5StateSent : ProcState := { w5State with ledger := [("k", 0)] }

/-- Three same-category alerts of priorities 1, 2 and 3. -/
def c6a1 : Alert :=
  { level := .info, alertType := "price", metal := none, message := "a1"
    contentHash := ("k1", 0), priority := 1, requiresLLM := false }

/-- Priority-2 sibling of `c6a1`. -/
def c6a2 : Alert :=
  { level := .importante, alertType := "price", metal := none, message := "a2"
    contentHash := ("k2", 0), priority := 2, requiresLLM := false }

/-- Priority-3 sibling of `c6a1`. -/
def c6a3 : Alert :=
  { level := .critico, alertType := "price", metal := none, message := "a3"
    contentHash := ("k3", 0), priority := 3, requiresLLM := false }

/-- Processor state with 48 of the 50 hourly dispatches already used and
three queued alerts of mixed priority: exactly two may still dispatch. -/
def c6State : ProcState :=
  { queue := [c6a1, c6a2, c6a3], ledger := [], filtros := [], ativos := true
    silenciadoAte := none, now := 0, alertsSentThisHour := 48, hourStart := 0
    sentLog := [] }

/-- Processor state with one queued alert whose send will fail. -/
def c7State : ProcState :=
  { queue := [w5Alert], ledger := [], filtros := [], ativos := true
    silenciadoAte := none, now := 0, alertsSentThisHour := 0, hourStart := 0
    sentLog := [] }

/-- Processor state silenced until time 100 with three queued alerts. -/
def c10State : ProcState :=
  { queue := [c6a1, c6a2, c6a3], ledger := [], filtros := [], ativos := true
    silenciadoAte := some 100, now := 0, alertsSentThisHour := 0, hourStart := 0
    sentLog := [] }

/-- A 90-reliability gold observation at time 0. -/
def pdA : PriceData :=
  { metal := "XAU", price := 2000, changePercent := 0, source := "kitco"
    timestamp := 0, reliability := 90 }

/-- A 95-reliability gold observation at time 1. -/
def pdB : PriceData :=
  { metal := "XAU", price := 2010, changePercent := 0, source := "metals.live"
    timestamp := 1, reliability := 95 }

/-- A silver observation priced at 500, far outside silver's [10, 100]
admissible band. -/
def pdBad : PriceData :=
  { metal := "XAG", price := 500, changePercent := 0, source := "investing"
    timestamp := 0, reliability := 100 }

/-! ## Lemmas about the fusion engine -/

theorem lookupCode_setCode :
    ∀ (m : List (String × PriceData)) (c code : String) (priceData : PriceData),
    lookupCode (setCode m c priceData) code =
      if c = code then some priceData else lookupCode m code
  | [], c, code, priceData => by simp [setCode, lookupCode]
  | (c', p) :: rest, c, code, priceData => by
    by_cases h1 : c' = c
    · subst h1
      simp only [setCode, if_pos rfl, lookupCode]
      by_cases h2 : c' = code
      · subst h2; simp
      · simp [h2]
    · simp only [setCode, if_neg h1, lookupCode]
      by_cases h2 : c' = code
      · subst h2
        have hc : ¬ c = c' := fun he => h1 he.symm
        simp [hc]
      · simp only [if_neg h2]
        exact lookupCode_setCode rest c code priceData

theorem lookupCode_mergeStep (m : List (String × PriceData)) (e : String × PriceData)
    (code : String) :
    lookupCode (mergeStep m e) code =
      if e.1 = code then mergeOne (lookupCode m code) e.2 else lookupCode m code := by
  obtain ⟨c, priceData⟩ := e
  by_cases hv : validatePrice priceData = false
  · simp [mergeStep, mergeOne, hv]
  · cases hm : lookupCode m c with
    | none =>
      by_cases hc : c = code
      · subst hc
        simp [mergeStep, mergeOne, hm, hv, lookupCode_setCode]
      · simp [mergeStep, mergeOne, hm, hv, hc, lookupCode_setCode]
    | some existing =>
      by_cases hc : c = code
      · subst hc
        by_cases h1 : existing.reliability < priceData.reliability
        · simp [mergeStep, mergeOne, hm, hv, h1, lookupCode_setCode]
        · by_cases h2 : priceData.reliability = existing.reliability ∧
              existing.timestamp < priceData.timestamp
          · simp [mergeStep, mergeOne, hm, hv, h1, h2, lookupCode_setCode]
          · simp [mergeStep, mergeOne, hm, hv, h1, h2, lookupCode_setCode]
      · by_cases h1 : existing.reliability < priceData.reliability
        · simp [mergeStep, mergeOne, hm, hv, h1, hc, lookupCode_setCode]
        · by_cases h2 : priceData.reliability = existing.reliability ∧
              existing.timestamp < priceData.timestamp
          · simp [mergeStep, mergeOne, hm, hv, h1, h2, hc, lookupCode_setCode]
          · simp [mergeStep, mergeOne, hm, hv, h1, h2, hc, lookupCode_setCode]

theorem lookupCode_foldl_mergeStep :
    ∀ (es : List (String × PriceData)) (m : List (String × PriceData)) (code : String),
    lookupCode (es.foldl mergeStep m) code =
      ((es.filter (fun e => e.1 = code)).map Prod.snd).foldl mergeOne (lookupCode m code)
  | [], _, _ => rfl
  | e :: rest, m, code => by
    simp only [List.foldl_cons, List.filter_cons]
    rw [lookupCode_foldl_mergeStep rest, lookupCode_mergeStep]
    by_cases hc : e.1 = code
    · simp [hc]
    · simp [hc]

theorem lookupCode_mergePrices (allResults : List (List (String × PriceData)))
    (code : String) :
    lookupCode (mergePrices allResults) code =
      ((allResults.flatten.filter (fun e => e.1 = code)).map Prod.snd).foldl mergeOne none := by
  unfold mergePrices
  rw [← List.foldl_flatten, lookupCode_foldl_mergeStep]
  rfl

theorem isBest_mergeOne {acc : Option PriceData} {s : List PriceData} (h : IsBest acc s)
    (priceData : PriceData) :
    IsBest (mergeOne acc priceData)
      (s ++ if validatePrice priceData = true then [priceData] else []) := by
  by_cases hv : validatePrice priceData = false
  · have hfalse : (if validatePrice priceData = true then [priceData] else []) = [] := by
      simp [hv]
    rw [hfalse, List.append_nil]
    simpa [mergeOne, hv] using h
  · have hvt : validatePrice priceData = true := by
      revert hv; cases validatePrice priceData <;> simp
    rw [if_pos hvt]
    cases acc with
    | none =>
      have hs : s = [] := h
      subst hs
      simp only [mergeOne, if_neg hv, List.nil_append, IsBest]
      exact ⟨List.mem_singleton_self _, fun q hq => by
        rw [List.mem_singleton] at hq
        subst hq
        exact ⟨le_refl _, fun _ => le_refl _⟩⟩
    | some existing =>
      obtain ⟨hmem, hbound⟩ := h
      simp only [mergeOne, if_neg hv]
      by_cases h1 : existing.reliability < priceData.reliability
      · rw [if_pos h1]
        refine ⟨List.mem_append_right s (List.mem_singleton_self _), fun q hq => ?_⟩
        rcases List.mem_append.mp hq with hqs | hqp
        · have hb := hbound q hqs
          constructor
          · exact le_trans hb.1 (le_of_lt h1)
          · intro he
            exfalso
            have : q.reliability < priceData.reliability := lt_of_le_of_lt hb.1 h1
            omega
        · rw [List.mem_singleton] at hqp
          subst hqp
          exact ⟨le_refl _, fun _ => le_refl _⟩
      · rw [if_neg h1]
        by_cases h2 : priceData.reliability = existing.reliability ∧
            existing.timestamp < priceData.timestamp
        · rw [if_pos h2]
          refine ⟨List.mem_append_right s (List.mem_singleton_self _), fun q hq => ?_⟩
          rcases List.mem_append.mp hq with hqs | hqp
          · have hb := hbound q hqs
            constructor
            · rw [← h2.1] at hb
              exact hb.1
            · intro he
              have h3 := hb.2 (by omega)
              omega
          · rw [List.mem_singleton] at hqp
            subst hqp
            exact ⟨le_refl _, fun _ => le_refl _⟩
        · rw [if_neg h2]
          refine ⟨List.mem_append_left _ hmem, fun q hq => ?_⟩
          rcases List.mem_append.mp hq with hqs | hqp
          · exact hbound q hqs
          · rw [List.mem_singleton] at hqp
            subst hqp
            constructor
            · omega
            · intro he
              omega

theorem isBest_foldl_mergeOne :
    ∀ (l : List PriceData) (acc : Option PriceData) (s : List PriceData),
    IsBest acc s →
    IsBest (l.foldl mergeOne acc) (s ++ l.filter (fun priceData => validatePrice priceData = true))
  | [], acc, s, h => by simpa using h
  | priceData :: rest, acc, s, h => by
    simp only [List.foldl_cons, List.filter_cons]
    have h2 := isBest_foldl_mergeOne rest (mergeOne acc priceData)
      (s ++ if validatePrice priceData = true then [priceData] else [])
      (isBest_mergeOne h priceData)
    rw [List.append_assoc] at h2
    by_cases hv : validatePrice priceData = true
    · simpa [hv] using h2
    · simpa [hv] using h2

/-- The per-instrument outcome of `_merge_prices` is the specification-best
surviving observation. -/
theorem mergePrices_isBest (allResults : List (List (String × PriceData)))
    (code : String) :
    IsBest (lookupCode (mergePrices allResults) code) (survivorsFor allResults code) := by
  have hb := isBest_foldl_mergeOne
    ((allResults.flatten.filter (fun e => e.1 = code)).map Prod.snd) none [] rfl
  rw [← lookupCode_mergePrices] at hb
  simpa [survivorsFor] using hb

/-- C1: for every instrument in a fusion cycle, the fused price produced by
`_merge_prices` is one of the surviving (validated) observations for that
instrument, its reliability is maximal among them, and among the survivors
of that maximal reliability its timestamp is maximal (ties resolve to the
most recent timestamp). -/
theorem mergePrices_selects_best (allResults : List (List (String × PriceData)))
    (code : String) (priceData : PriceData)
    (h : lookupCode (mergePrices allResults) code = some priceData) :
    priceData ∈ survivorsFor allResults code ∧
      ∀ q ∈ survivorsFor allResults code,
        q.reliability ≤ priceData.reliability ∧
          (q.reliability = priceData.reliability → q.timestamp ≤ priceData.timestamp) := by
  have hb := mergePrices_isBest allResults code
  rw [h] at hb
  exact hb

/-- Witness for C1 at a concrete two-source cycle: the 95-reliability
observation wins over the 90-reliability one. -/
theorem mergePrices_selects_best_witness :
    pdB ∈ survivorsFor [[("XAU", pdA)], [("XAU", pdB)]] "XAU" ∧
      ∀ q ∈ survivorsFor [[("XAU", pdA)], [("XAU", pdB)]] "XAU",
        q.reliability ≤ pdB.reliability ∧
          (q.reliability = pdB.reliability → q.timestamp ≤ pdB.timestamp) :=
  mergePrices_selects_best [[("XAU", pdA)], [("XAU", pdB)]] "XAU" pdB (by decide)

/-- C2: an observation priced outside its instrument's configured admissible
band is never the merged result, regardless of reliability; and the
"suspicious change" soft warning never influences validation — the verdict
of `_validate_price` is invariant under the observation's
`change_percent`. -/
theorem validate_band_and_soft_warning :
    (∀ (allResults : List (List (String × PriceData))) (code : String)
        (priceData : PriceData) (lo hi : ℚ),
        priceLimits priceData.metal = some (lo, hi) →
        (priceData.price < lo ∨ hi < priceData.price) →
        lookupCode (mergePrices allResults) code ≠ some priceData) ∧
    (∀ (priceData : PriceData) (c : ℚ),
        validatePrice { priceData with changePercent := c } = validatePrice priceData) := by
  constructor
  · intro allResults code priceData lo hi hlim hout h
    have hb := mergePrices_isBest allResults code
    rw [h] at hb
    have hmem : priceData ∈ survivorsFor allResults code := hb.1
    have hval : validatePrice priceData = true := by
      have := List.mem_filter.mp hmem
      simpa using this.2
    have hneg : ¬ (lo ≤ priceData.price ∧ priceData.price ≤ hi) := by
      rcases hout with h1 | h1
      · intro hc; exact absurd h1 (not_lt.mpr hc.1)
      · intro hc; exact absurd h1 (not_lt.mpr hc.2)
    rw [validatePrice, hlim] at hval
    simp [hneg] at hval
  · intro priceData c
    rfl

/-- Witness for C2: the 500-priced silver observation (band [10, 100]) is
not selected, and raising its reported change to 50% does not change the
validation verdict. -/
theorem validate_band_and_soft_warning_witness :
    lookupCode (mergePrices [[("XAG", pdBad)]]) "XAG" ≠ some pdBad ∧
      validatePrice { pdBad with changePercent := 50 } = validatePrice pdBad := by
  have h := validate_band_and_soft_warning
  exact ⟨h.1 [[("XAG", pdBad)]] "XAG" pdBad 10 100 (by decide) (by decide),
    h.2 pdBad 50⟩

/-! ## Lemmas about change computation and price alerts -/

theorem getLast?_mem_of_eq {α : Type} {l : List α} {x : α} (h : l.getLast? = some x) :
    x ∈ l := by
  induction l with
  | nil => simp at h
  | cons a t ih =>
    cases t with
    | nil =>
      simp at h
      subst h
      exact List.mem_singleton_self a
    | cons b t2 =>
      rw [List.getLast?_cons_cons] at h
      exact List.mem_cons_of_mem a (ih h)

theorem getLast?_max {l : List (ℤ × ℚ)} {x : ℤ × ℚ}
    (hs : l.Pairwise (fun p q => p.1 ≤ q.1)) (hx : l.getLast? = some x) :
    ∀ y ∈ l, y.1 ≤ x.1 := by
  induction l with
  | nil => simp at hx
  | cons a t ih =>
    rw [List.pairwise_cons] at hs
    cases t with
    | nil =>
      simp at hx
      subst hx
      intro y hy
      simp at hy
      subst hy
      exact le_refl _
    | cons b t2 =>
      rw [List.getLast?_cons_cons] at hx
      intro y hy
      rcases List.mem_cons.mp hy with rfl | hyt
      · exact hs.1 x (getLast?_mem_of_eq hx)
      · exact ih hs.2 hx y hyt

/-- C4: `calculate_change` is unavailable exactly when no history point lies
at or before `now - window`; otherwise it returns `(percent, absolute)` with
`absolute = current − old` and `percent = absolute / old × 100`, where
`current` is the last history point and `old` is (for a chronologically
ordered history) a point of maximal timestamp among those at or before the
cutoff. -/
theorem calculateChange_spec (st : CollectorState) (metal : String) (minutes : ℤ)
    (hsorted : (st.priceHistory (strUpper metal)).Pairwise (fun p q => p.1 ≤ q.1)) :
    (calculateChange st metal minutes = none ↔
      ∀ p ∈ st.priceHistory (strUpper metal), ¬ (p.1 ≤ st.now - minutes)) ∧
    (∀ pct cv, calculateChange st metal minutes = some (pct, cv) →
      ∃ current old, (st.priceHistory (strUpper metal)).getLast? = some current ∧
        old ∈ st.priceHistory (strUpper metal) ∧ old.1 ≤ st.now - minutes ∧
        (∀ q ∈ st.priceHistory (strUpper metal), q.1 ≤ st.now - minutes → q.1 ≤ old.1) ∧
        cv = current.2 - old.2 ∧ pct = cv / old.2 * 100) := by
  cases hlast : (st.priceHistory (strUpper metal)).getLast? with
  | none =>
    have hnil : st.priceHistory (strUpper metal) = [] :=
      List.getLast?_eq_none_iff.mp hlast
    have hcc : calculateChange st metal minutes = none := by
      simp only [calculateChange, hlast]
    constructor
    · rw [hcc]
      constructor
      · intro _ p hp
        rw [hnil] at hp
        simp at hp
      · intro _
        rfl
    · intro pct cv hsome
      rw [hcc] at hsome
      exact absurd hsome (by simp)
  | some current =>
    cases hfil :
        ((st.priceHistory (strUpper metal)).filter
          (fun p => p.1 ≤ st.now - minutes)).getLast? with
    | none =>
      have hfe : (st.priceHistory (strUpper metal)).filter
          (fun p => decide (p.1 ≤ st.now - minutes)) = [] :=
        List.getLast?_eq_none_iff.mp hfil
      have hcc : calculateChange st metal minutes = none := by
        simp only [calculateChange, hlast, hfil]
      constructor
      · rw [hcc]
        constructor
        · intro _ p hp hple
          have hmem : p ∈ (st.priceHistory (strUpper metal)).filter
              (fun q => decide (q.1 ≤ st.now - minutes)) :=
            List.mem_filter.mpr ⟨hp, by simpa using hple⟩
          rw [hfe] at hmem
          simp at hmem
        · intro _
          rfl
      · intro pct cv hsome
        rw [hcc] at hsome
        exact absurd hsome (by simp)
    | some old =>
      have homem := List.mem_filter.mp (getLast?_mem_of_eq hfil)
      have hole : old.1 ≤ st.now - minutes := by simpa using homem.2
      have hcc : calculateChange st metal minutes =
          some (if old.2 ≠ 0 then (current.2 - old.2) / old.2 * 100 else 0,
            current.2 - old.2) := by
        simp only [calculateChange, hlast, hfil]
      constructor
      · rw [hcc]
        constructor
        · intro hco
          exact absurd hco (by simp)
        · intro hall
          exact absurd hole (hall old homem.1)
      · intro pct cv hsome
        rw [hcc, Option.some.injEq, Prod.mk.injEq] at hsome
        obtain ⟨hp, hcv⟩ := hsome
        refine ⟨current, old, rfl, homem.1, hole, ?_, hcv.symm, ?_⟩
        · intro q hq hqle
          have hqf : q ∈ (st.priceHistory (strUpper metal)).filter
              (fun p => decide (p.1 ≤ st.now - minutes)) :=
            List.mem_filter.mpr ⟨hq, by simpa using hqle⟩
          exact getLast?_max (List.Pairwise.filter _ hsorted) hfil q hqf
        · subst hcv
          by_cases hz : old.2 = 0
          · rw [← hp, if_neg (by simpa using hz), hz, div_zero, zero_mul]
          · rw [← hp, if_pos hz]

/-- Witness for C4: on the concrete two-point history the change over a
15-minute window is available. -/
theorem calculateChange_spec_witness :
    calculateChange c4State "XAU" 15 ≠ none := by
  have h := calculateChange_spec c4State "XAU" 15 (by decide)
  intro hn
  exact h.1.mp hn (0, 100) (by decide) (by decide)

theorem alertLevel_mem_order (level : AlertLevel) : level ∈ alertLevelOrder := by
  cases level <;> decide

theorem priceAlertForLevel_eq_some (st : CollectorState) (metal : String)
    (level : AlertLevel) (cand : PriceAlertCand) :
    priceAlertForLevel st metal level = some cand ↔
      calculateChange st metal (alertThresholds level).1 =
        some (cand.changePercent, cand.changeValue) ∧
      (alertThresholds level).2 ≤ |cand.changePercent| ∧
      (∃ priceData, getLastPrice st metal = some priceData ∧
        cand.currentPrice = priceData.price) ∧
      cand.level = level ∧ cand.metal = metal ∧
      cand.timeframeMinutes = (alertThresholds level).1 := by
  cases hcc : calculateChange st metal (alertThresholds level).1 with
  | none =>
    simp only [priceAlertForLevel, hcc]
    simp
  | some pr =>
    obtain ⟨cp, cv⟩ := pr
    by_cases hth : (alertThresholds level).2 ≤ |cp|
    · cases hlp : getLastPrice st metal with
      | none =>
        simp only [priceAlertForLevel, hcc, hlp, if_pos hth]
        simp [hlp]
      | some current =>
        simp only [priceAlertForLevel, hcc, hlp, if_pos hth]
        constructor
        · intro hsome
          rw [Option.some.injEq] at hsome
          subst hsome
          exact ⟨rfl, hth, ⟨current, rfl, rfl⟩, rfl, rfl, rfl⟩
        · rintro ⟨h1, _h2, ⟨priceData, hpd, hcur⟩, h4, h5, h6⟩
          rw [Option.some.injEq, Prod.mk.injEq] at h1
          rw [Option.some.injEq] at hpd
          subst hpd
          rw [Option.some.injEq]
          cases cand
          simp only [PriceAlertCand.mk.injEq]
          simp only at h1 h4 h5 h6 hcur
          exact ⟨h4.symm, h5.symm, h1.1, h1.2, hcur.symm, h6.symm⟩
    · simp only [priceAlertForLevel, hcc, if_neg hth]
      constructor
      · intro hsome
        exact absurd hsome (by simp)
      · rintro ⟨h1, h2, _⟩
        rw [Option.some.injEq, Prod.mk.injEq] at h1
        rw [← h1.1] at h2
        exact absurd h2 hth

theorem checkPriceAlerts_mem (st : CollectorState) (cand : PriceAlertCand) :
    cand ∈ checkPriceAlerts st ↔
      cand.metal ∈ metaisKeys ∧
        priceAlertForLevel st cand.metal cand.level = some cand := by
  rw [checkPriceAlerts, List.mem_flatMap]
  constructor
  · rintro ⟨metal, hmk, hpm⟩
    rw [priceAlertsForMetal, List.mem_filterMap] at hpm
    obtain ⟨level, _hlv, hf⟩ := hpm
    have hfacts := (priceAlertForLevel_eq_some st metal level cand).mp hf
    have hm : cand.metal = metal := hfacts.2.2.2.2.1
    have hl : cand.level = level := hfacts.2.2.2.1
    rw [hm, hl]
    exact ⟨hmk, hf⟩
  · rintro ⟨hmk, hf⟩
    refine ⟨cand.metal, hmk, ?_⟩
    rw [priceAlertsForMetal, List.mem_filterMap]
    exact ⟨cand.level, alertLevel_mem_order _, hf⟩

/-- C3 (amended): `check_price_alerts` evaluates the tiers in the fixed enum
order critical (15 min), important (60 min), info (24 h) — tightest to
loosest — and emits a candidate for every tier whose threshold is met, with
that tier's severity; a single instrument can therefore yield up to three
price-change candidates in one pass. -/
theorem checkPriceAlerts_all_tiers_fire (st : CollectorState) :
    List.Chain' (fun a b => (alertThresholds a).1 < (alertThresholds b).1) alertLevelOrder ∧
    (∀ metal, (priceAlertsForMetal st metal).length ≤ 3) ∧
    ∀ cand, cand ∈ checkPriceAlerts st ↔
      cand.metal ∈ metaisKeys ∧
      calculateChange st cand.metal (alertThresholds cand.level).1 =
        some (cand.changePercent, cand.changeValue) ∧
      (alertThresholds cand.level).2 ≤ |cand.changePercent| ∧
      (∃ priceData, getLastPrice st cand.metal = some priceData ∧
        cand.currentPrice = priceData.price) ∧
      cand.timeframeMinutes = (alertThresholds cand.level).1 := by
  refine ⟨?_, ?_, ?_⟩
  · simp only [alertLevelOrder, List.chain'_cons, List.chain'_singleton, alertThresholds,
      and_true]
    exact ⟨by decide, by decide⟩
  · intro metal
    exact le_trans (List.length_filterMap_le _ _) (by decide)
  · intro cand
    rw [checkPriceAlerts_mem, priceAlertForLevel_eq_some]
    constructor
    · rintro ⟨hmk, h1, h2, h3, _h4, _h5, h6⟩
      exact ⟨hmk, h1, h2, h3, h6⟩
    · rintro ⟨hmk, h1, h2, h3, h6⟩
      exact ⟨hmk, h1, h2, h3, rfl, rfl, h6⟩

theorem calculateChange_c3_15 : calculateChange c3State "XAU" 15 = some (3, 30) := by
  have hs : strUpper "XAU" = "XAU" := by decide
  simp only [calculateChange, c3State, hs]
  norm_num [List.getLast?, List.filter]

theorem calculateChange_c3_60 : calculateChange c3State "XAU" 60 = some (3, 30) := by
  have hs : strUpper "XAU" = "XAU" := by decide
  simp only [calculateChange, c3State, hs]
  norm_num [List.getLast?, List.filter]

theorem calculateChange_c3_1440 : calculateChange c3State "XAU" 1440 = some (3, 30) := by
  have hs : strUpper "XAU" = "XAU" := by decide
  simp only [calculateChange, c3State, hs]
  norm_num [List.getLast?, List.filter]

theorem priceAlertsForMetal_c3_XAU :
    priceAlertsForMetal c3State "XAU" =
      [{ level := .critico, metal := "XAU", changePercent := 3, changeValue := 30,
         currentPrice := 1030, timeframeMinutes := 15 },
       { level := .importante, metal := "XAU", changePercent := 3, changeValue := 30,
         currentPrice := 1030, timeframeMinutes := 60 },
       { level := .info, metal := "XAU", changePercent := 3, changeValue := 30,
         currentPrice := 1030, timeframeMinutes := 1440 }] := by
  have hlp : getLastPrice c3State "XAU" = some pdXau1030 := by decide
  simp only [priceAlertsForMetal, alertLevelOrder, List.filterMap_cons, List.filterMap_nil,
    priceAlertForLevel, alertThresholds, calculateChange_c3_15, calculateChange_c3_60,
    calculateChange_c3_1440, hlp]
  norm_num [pdXau1030]

/-- C3 (counterexample): in the concrete state `c3State` — gold moved from
1000 to 1030 within 15 minutes, with an anchor point 1500 minutes back —
one pass of `check_price_alerts` emits three price-change candidates for
the single instrument XAU (critical, important and info), refuting "at most
one price-change candidate per instrument per pass, with the severity of
the first tier met". -/
theorem checkPriceAlerts_not_single_candidate :
    ((checkPriceAlerts c3State).filter (fun cand => cand.metal = "XAU")).length = 3 := by
  have hXAG : priceAlertsForMetal c3State "XAG" = [] := by decide
  have hXPT : priceAlertsForMetal c3State "XPT" = [] := by decide
  have hXPD : priceAlertsForMetal c3State "XPD" = [] := by decide
  have hXCU : priceAlertsForMetal c3State "XCU" = [] := by decide
  have hXAL : priceAlertsForMetal c3State "XAL" = [] := by decide
  have hXNI : priceAlertsForMetal c3State "XNI" = [] := by decide
  have hXPB : priceAlertsForMetal c3State "XPB" = [] := by decide
  have hXZN : priceAlertsForMetal c3State "XZN" = [] := by decide
  have hXSN : priceAlertsForMetal c3State "XSN" = [] := by decide
  have hUX : priceAlertsForMetal c3State "UX" = [] := by decide
  have hFE : priceAlertsForMetal c3State "FE" = [] := by decide
  simp only [checkPriceAlerts, metaisKeys, List.flatMap_cons, List.flatMap_nil,
    priceAlertsForMetal_c3_XAU, hXAG, hXPT, hXPD, hXCU, hXAL, hXNI, hXPB, hXZN, hXSN,
    hUX, hFE, List.append_nil, List.nil_append]
  decide

/-- Witness for the amended C3: the critical candidate produced by the
15-minute tier is among the emitted candidates for the concrete state. -/
theorem checkPriceAlerts_all_tiers_fire_witness :
    ({ level := .critico, metal := "XAU", changePercent := 3, changeValue := 30,
       currentPrice := 1030, timeframeMinutes := 15 } : PriceAlertCand) ∈
      checkPriceAlerts c3State := by
  have h := (checkPriceAlerts_all_tiers_fire c3State).2.2
    { level := .critico, metal := "XAU", changePercent := 3, changeValue := 30,
      currentPrice := 1030, timeframeMinutes := 15 }
  refine h.mpr ⟨by decide, ?_, by norm_num [alertThresholds], ⟨pdXau1030, by decide, by decide⟩,
    by decide⟩
  exact calculateChange_c3_15

/-! ## Lemmas about the technical level engine -/

/-- C8 (counterexample): with a stored level at exactly 20 and the price
moving 10 → 20, `check_level_breaks` reports the level (direction up) even
though its value does not lie strictly between the two prices: the test is
inclusive at the current price. -/
theorem checkLevelBreaks_inclusive_boundary :
    checkLevelBreaks [c8Level] 20 10 = [(c8Level, .up)] ∧
      ¬ ((10 < c8Level.value ∧ c8Level.value < 20) ∨
         (20 < c8Level.value ∧ c8Level.value < 10)) := by
  constructor
  · decide
  · decide

/-- C8 (amended): `check_level_breaks` reports a stored level exactly when
the price crossed it — strictly beyond the previous price and at or beyond
the current price — tagging it `up` for `previous < value ≤ current` and
`down` for `previous > value ≥ current`. -/
theorem checkLevelBreaks_characterization (levels : List TechnicalLevel)
    (currentPrice previousPrice : ℚ) (level : TechnicalLevel) (d : BreakDirection) :
    (level, d) ∈ checkLevelBreaks levels currentPrice previousPrice ↔
      level ∈ levels ∧
        ((d = .up ∧ previousPrice < level.value ∧ level.value ≤ currentPrice) ∨
         (d = .down ∧ previousPrice > level.value ∧ level.value ≥ currentPrice)) := by
  rw [checkLevelBreaks, List.mem_filterMap]
  constructor
  · rintro ⟨a, ha, hf⟩
    by_cases h1 : previousPrice < a.value ∧ a.value ≤ currentPrice
    · rw [if_pos h1, Option.some.injEq, Prod.mk.injEq] at hf
      obtain ⟨rfl, rfl⟩ := hf
      exact ⟨ha, Or.inl ⟨rfl, h1⟩⟩
    · rw [if_neg h1] at hf
      by_cases h2 : previousPrice > a.value ∧ a.value ≥ currentPrice
      · rw [if_pos h2, Option.some.injEq, Prod.mk.injEq] at hf
        obtain ⟨rfl, rfl⟩ := hf
        exact ⟨ha, Or.inr ⟨rfl, h2⟩⟩
      · rw [if_neg h2] at hf
        exact absurd hf (by simp)
  · rintro ⟨hmem, hcond⟩
    refine ⟨level, hmem, ?_⟩
    rcases hcond with ⟨rfl, hc⟩ | ⟨rfl, hc⟩
    · rw [if_pos hc]
    · have hn : ¬ (previousPrice < level.value ∧ level.value ≤ currentPrice) := by
        intro hx
        exact absurd hc.1 (not_lt.mpr (le_of_lt hx.1))
      rw [if_neg hn, if_pos hc]

/-- Witness for the amended C8 at the boundary input. -/
theorem checkLevelBreaks_characterization_witness :
    (c8Level, BreakDirection.up) ∈ checkLevelBreaks [c8Level] 20 10 :=
  (checkLevelBreaks_characterization [c8Level] 20 10 c8Level .up).mpr (by decide)

theorem findMultipleTouches_member_count {prices : List ℚ} {tolerancePercent lvl : ℚ}
    {cnt : ℕ} (h : (lvl, cnt) ∈ findMultipleTouches prices tolerancePercent) :
    2 ≤ cnt := by
  simp only [findMultipleTouches] at h
  by_cases h1 : prices.isEmpty = true
  · rw [if_pos h1] at h
    simp at h
  · rw [if_neg h1] at h
    by_cases h2 : (localExtremes prices).isEmpty = true
    · rw [if_pos h2] at h
      simp at h
    · rw [if_neg h2, List.mem_mergeSort] at h
      obtain ⟨g, hg, hEq⟩ := List.mem_map.mp h
      obtain ⟨_hgmem, hglen⟩ := List.mem_filter.mp hg
      rw [Prod.mk.injEq] at hEq
      rw [← hEq.2]
      simpa using hglen

unseal List.merge List.mergeSort in
/-- C9: every multi-touch level reported by `find_multiple_touches` is a
cluster of at least two extrema; every wrapped `TechnicalLevel` carries
`strength = min(touches, 5) ≤ 5` with at least two touches; and the
synthetic series with maxima 1000 and 1002 (mutually within the 0.5%
tolerance) plus the isolated maximum 1500 yields exactly its three strict
local extrema and exactly one two-member cluster level at their mean 1001,
with no level for the isolated extremum. -/
theorem multi_touch_clustering :
    (∀ (prices : List ℚ) (tolerancePercent lvl : ℚ) (cnt : ℕ),
        (lvl, cnt) ∈ findMultipleTouches prices tolerancePercent → 2 ≤ cnt) ∧
    (∀ (metal : String) (currentPrice : ℚ) (prices : List ℚ) (l : TechnicalLevel),
        l ∈ multiTouchLevels metal currentPrice prices →
        l.strength = min l.touches 5 ∧ l.strength ≤ 5 ∧ 2 ≤ l.touches) ∧
    localExtremes c9Series = [1000, 1002, 1500] ∧
    findMultipleTouches c9Series (1/2) = [(1001, 2)] := by
  refine ⟨fun _ _ _ _ h => findMultipleTouches_member_count h, ?_, ?_, ?_⟩
  · intro metal currentPrice prices l hmem
    simp only [multiTouchLevels] at hmem
    obtain ⟨p, hp, hEq⟩ := List.mem_map.mp hmem
    have hp2 := List.snd_mem_of_mem_enum hp
    have hp3 := List.mem_of_mem_take hp2
    have hcnt : 2 ≤ p.2.2 := findMultipleTouches_member_count (by simpa using hp3)
    rw [← hEq]
    exact ⟨rfl, min_le_right _ _, hcnt⟩
  · decide
  · have he : localExtremes [0, 1000, 500, 500, 1002, 600, 600, 1500, 0] =
        [1000, 1002, 1500] := by decide
    have hsort : List.mergeSort [(1000 : ℚ), 1002, 1500] (fun a b => a ≤ b) =
        [1000, 1002, 1500] := by decide
    simp only [findMultipleTouches, c9Series, he, hsort]
    norm_num [insertIntoGroups, List.foldl, List.filter]

/-- Witness for C9: the reported cluster of the synthetic series indeed has
two members. -/
theorem multi_touch_clustering_witness :
    2 ≤ 2 ∧ findMultipleTouches c9Series (1/2) = [(1001, 2)] := by
  have h := multi_touch_clustering
  refine ⟨h.1 c9Series (1/2) 1001 2 ?_, h.2.2.2⟩
  rw [h.2.2.2]
  decide

/-! ## Lemmas about the alert pipeline -/

theorem checkRateLimitStep_no_reset (st : ProcState) (h : st.now - st.hourStart < 3600) :
    checkRateLimitStep st = (decide (st.alertsSentThisHour < 50), st) := by
  have hno : ¬ (3600 ≤ st.now - st.hourStart) := by omega
  simp [checkRateLimitStep, hno]

theorem checkRateLimitStep_ledger (st : ProcState) :
    (checkRateLimitStep st).2.ledger = st.ledger := by
  unfold checkRateLimitStep
  by_cases hr : 3600 ≤ st.now - st.hourStart
  · simp [hr]
  · simp [hr]

theorem drainQueue_true_eq :
    ∀ (q : List Alert) (st : ProcState), st.now - st.hourStart < 3600 →
    drainQueue (fun _ => true) q st =
      { st with
          queue := q.drop (50 - st.alertsSentThisHour)
          ledger := st.ledger ++
            (q.take (50 - st.alertsSentThisHour)).map (fun a => a.contentHash)
          alertsSentThisHour :=
            st.alertsSentThisHour + min (50 - st.alertsSentThisHour) q.length
          sentLog := st.sentLog ++ q.take (50 - st.alertsSentThisHour) }
  | [], st, h => by
    simp [drainQueue]
  | a :: rest, st, h => by
    obtain ⟨q0, led, fil, act, sil, now0, cnt, hs0, sl⟩ := st
    simp only at h
    have hstep := checkRateLimitStep_no_reset ⟨q0, led, fil, act, sil, now0, cnt, hs0, sl⟩
      (by simpa using h)
    by_cases hcnt : cnt < 50
    · have hrec := drainQueue_true_eq rest
        ⟨q0, led ++ [a.contentHash], fil, act, sil, now0, cnt + 1, hs0, sl ++ [a]⟩
        (by simpa using h)
      simp only at hrec
      simp only [drainQueue, hstep]
      rw [if_neg (by simp [hcnt])]
      rw [if_pos trivial]
      rw [hrec]
      simp only [ProcState.mk.injEq]
      have hk : 50 - cnt = (50 - (cnt + 1)) + 1 := by omega
      refine ⟨?_, ?_, trivial, trivial, trivial, trivial, ?_, trivial, ?_⟩
      · rw [hk, List.drop_succ_cons]
      · rw [hk, List.take_succ_cons, List.map_cons, List.append_assoc,
          List.singleton_append]
      · rw [hk, List.length_cons]
        omega
      · rw [hk, List.take_succ_cons, List.append_assoc, List.singleton_append]
    · have hz : 50 - cnt = 0 := by omega
      simp only [drainQueue, hstep]
      rw [if_pos (by simp [hcnt])]
      simp [hz]

theorem drainQueue_ledger_src (sendOk : Alert → Bool) :
    ∀ (q : List Alert) (st : ProcState) (fp : Fingerprint),
    fp ∈ (drainQueue sendOk q st).ledger →
    fp ∈ st.ledger ∨ ∃ b ∈ q, sendOk b = true ∧ b.contentHash = fp
  | [], st, fp, h => by
    simp only [drainQueue] at h
    exact Or.inl h
  | a :: rest, st, fp, h => by
    simp only [drainQueue] at h
    by_cases hok : (checkRateLimitStep st).1 = false
    · rw [if_pos hok] at h
      rw [checkRateLimitStep_ledger] at h
      exact Or.inl h
    · rw [if_neg hok] at h
      by_cases hs : sendOk a = true
      · rw [if_pos hs] at h
        rcases drainQueue_ledger_src sendOk rest _ fp h with hin | ⟨b, hb, hsb, hfp⟩
        · rw [checkRateLimitStep_ledger] at hin
          rcases List.mem_append.mp hin with hin2 | hin2
          · exact Or.inl hin2
          · rw [List.mem_singleton] at hin2
            exact Or.inr ⟨a, List.mem_cons_self a rest, hs, hin2.symm⟩
        · exact Or.inr ⟨b, List.mem_cons_of_mem a hb, hsb, hfp⟩
      · rw [if_neg hs] at h
        rcases drainQueue_ledger_src sendOk rest _ fp h with hin | ⟨b, hb, hsb, hfp⟩
        · rw [checkRateLimitStep_ledger] at hin
          exact Or.inl hin
        · exact Or.inr ⟨b, List.mem_cons_of_mem a hb, hsb, hfp⟩

theorem processQueue_ledger_src (sendOk : Alert → Bool) (st : ProcState)
    (fp : Fingerprint) :
    fp ∈ (processQueue sendOk st).ledger →
    fp ∈ st.ledger ∨ ∃ b ∈ st.queue, sendOk b = true ∧ b.contentHash = fp := by
  unfold processQueue
  by_cases h1 : st.queue.isEmpty = true
  · rw [if_pos h1]
    exact Or.inl
  · rw [if_neg h1]
    by_cases h2 : isSilenced st = true
    · rw [if_pos h2]
      intro h
      exact Or.inl h
    · rw [if_neg h2]
      intro h
      rcases drainQueue_ledger_src sendOk _ _ fp h with hin | ⟨b, hb, hsb, hfp⟩
      · exact Or.inl hin
      · exact Or.inr ⟨b, List.mem_mergeSort.mp hb, hsb, hfp⟩

/-- C7: when the send callback fails for an alert, its fingerprint is not
written to the sent-ledger by `process_queue` (so the condition stays
eligible for future regeneration); more generally, the only fingerprints
ever added to the ledger are those of queued alerts whose send succeeded. -/
theorem failed_send_not_recorded (sendOk : Alert → Bool) (st : ProcState) (a : Alert)
    (ha : a ∈ st.queue) (hfail : sendOk a = false)
    (hnot : a.contentHash ∉ st.ledger)
    (hsame : ∀ b ∈ st.queue, b.contentHash = a.contentHash → sendOk b = false) :
    a.contentHash ∉ (processQueue sendOk st).ledger ∧
      ∀ fp, fp ∈ (processQueue sendOk st).ledger →
        fp ∈ st.ledger ∨ ∃ b ∈ st.queue, sendOk b = true ∧ b.contentHash = fp := by
  constructor
  · intro hin
    rcases processQueue_ledger_src sendOk st _ hin with h | ⟨b, hb, hsb, hfp⟩
    · exact hnot h
    · rw [hsame b hb hfp] at hsb
      exact Bool.false_ne_true hsb
  · exact processQueue_ledger_src sendOk st

/-- Witness for C7: with a single queued alert whose send fails, the
fingerprint is absent from the ledger afterwards. -/
theorem failed_send_not_recorded_witness :
    (("k", 0) : Fingerprint) ∉ (processQueue (fun _ => false) c7State).ledger := by
  have h := failed_send_not_recorded (fun _ => false) c7State w5Alert
    (by decide) rfl (by decide) (fun b _ _ => rfl)
  exact h.1

/-- C10: whenever global suppression is active — the enabled switch is off,
or a silenced-until timestamp lies in the future — `process_queue`
dispatches nothing (sent log and ledger unchanged) and leaves the queue
empty, discarding all queued alerts. -/
theorem silence_discards_queue (sendOk : Alert → Bool) (st : ProcState)
    (h : st.ativos = false ∨ ∃ u, st.silenciadoAte = some u ∧ st.now < u) :
    (processQueue sendOk st).queue = [] ∧
      (processQueue sendOk st).sentLog = st.sentLog ∧
      (processQueue sendOk st).ledger = st.ledger := by
  have hsil : isSilenced st = true := by
    unfold isSilenced
    rcases h with h1 | ⟨u, h2, h3⟩
    · simp [h1]
    · cases hact : st.ativos
      · simp
      · simp [h2, h3]
  unfold processQueue
  by_cases hq : st.queue.isEmpty = true
  · rw [if_pos hq]
    refine ⟨?_, rfl, rfl⟩
    simpa using hq
  · rw [if_neg hq, if_pos hsil]
    exact ⟨rfl, rfl, rfl⟩

/-- Witness for C10: the silenced state with three queued alerts dispatches
zero alerts and ends with an empty queue. -/
theorem silence_discards_queue_witness :
    (processQueue (fun _ => true) c10State).queue = [] ∧
      (processQueue (fun _ => true) c10State).sentLog = [] := by
  have h := silence_discards_queue (fun _ => true) c10State
    (Or.inr ⟨100, rfl, by decide⟩)
  exact ⟨h.1, h.2.1⟩

theorem isSilenced_update_queue (st : ProcState) (q : List Alert) :
    isSilenced { st with queue := q } = isSilenced st := rfl

/-- C6: draining a non-empty queue of M alerts with N dispatches remaining
under the 50/hour cap (M > N, all sends succeeding, no counter reset due)
dispatches exactly the first N alerts of the priority-sorted queue and
leaves the other M − N in the queue; since the queue is sorted by
descending priority immediately before draining, every dispatched alert has
priority at least that of every remaining one. -/
theorem rate_limit_partial_drain (st : ProcState) (N : ℕ)
    (hfresh : st.now - st.hourStart < 3600)
    (hsil : isSilenced st = false)
    (hN : N = 50 - st.alertsSentThisHour)
    (hM : N < st.queue.length) :
    (processQueue (fun _ => true) st).sentLog =
        st.sentLog ++ (st.queue.mergeSort prioDesc).take N ∧
      ((st.queue.mergeSort prioDesc).take N).length = N ∧
      (processQueue (fun _ => true) st).queue = (st.queue.mergeSort prioDesc).drop N ∧
      (processQueue (fun _ => true) st).queue.length = st.queue.length - N ∧
      ∀ a ∈ (st.queue.mergeSort prioDesc).take N,
        ∀ b ∈ (processQueue (fun _ => true) st).queue, b.priority ≤ a.priority := by
  subst hN
  have hne : ¬ (st.queue.isEmpty = true) := by
    cases hq : st.queue with
    | nil => rw [hq] at hM; simp at hM
    | cons x xs => simp [hq]
  have hPQ : processQueue (fun _ => true) st =
      drainQueue (fun _ => true) (st.queue.mergeSort prioDesc) { st with queue := [] } := by
    unfold processQueue
    rw [if_neg hne, if_neg (by simp [hsil])]
  have hlen : (st.queue.mergeSort prioDesc).length = st.queue.length := by simp
  rw [hPQ, drainQueue_true_eq (st.queue.mergeSort prioDesc) _ (by simpa using hfresh)]
  simp only []
  have hNle : 50 - st.alertsSentThisHour ≤ (st.queue.mergeSort prioDesc).length := by
    rw [hlen]; omega
  have htl : ((st.queue.mergeSort prioDesc).take (50 - st.alertsSentThisHour)).length =
      50 - st.alertsSentThisHour := by
    rw [List.length_take, Nat.min_eq_left hNle]
  refine ⟨trivial, htl, trivial, ?_, ?_⟩
  · rw [List.length_drop, hlen]
  · intro a ha b hb
    have hb2 : b ∈ (st.queue.mergeSort prioDesc).drop (50 - st.alertsSentThisHour) := hb
    have hsorted : (st.queue.mergeSort prioDesc).Pairwise (fun x y => prioDesc x y) :=
      List.sorted_mergeSort
        (by intro x y z hxy hyz; simp [prioDesc] at *; omega)
        (by intro x y; simp [prioDesc]; omega) st.queue
    rw [← List.take_append_drop (50 - st.alertsSentThisHour)
      (st.queue.mergeSort prioDesc)] at hsorted
    have hr := (List.pairwise_append.mp hsorted).2.2 a ha b hb2
    simpa [prioDesc] using hr

unseal List.merge List.mergeSort in
/-- Witness for C6: with 48 of 50 hourly dispatches used and three queued
alerts of priorities 1, 2, 3, exactly the two highest-priority alerts
dispatch (in descending order) and the priority-1 alert remains queued. -/
theorem rate_limit_partial_drain_witness :
    (processQueue (fun _ => true) c6State).queue = [c6a1] ∧
      (processQueue (fun _ => true) c6State).sentLog = [c6a3, c6a2] := by
  have h := rate_limit_partial_drain c6State 2 (by decide) (by decide) (by decide) (by decide)
  constructor
  · rw [h.2.2.1]
    decide
  · rw [h.1]
    decide

/-- C5: a candidate whose fingerprint is already in the sent-ledger is
discarded at queue time; a non-filtered candidate with an unsent
fingerprint is queued; fingerprints agree exactly when content key and hour
bucket agree (so a different hour bucket gives a different fingerprint and
renewed eligibility); and queuing then dispatching one of two
same-fingerprint candidates records the fingerprint, after which the second
candidate is discarded at queue time — exactly one dispatch. -/
theorem fingerprint_dedup (st : ProcState) (a b : Alert) :
    (isAlertSent st a.contentHash = true → queueAlert st a = st) ∧
      (alertFiltered st a = false → isAlertSent st a.contentHash = false →
        queueAlert st a = { st with queue := st.queue ++ [a] }) ∧
      (∀ (content : String) (t1 t2 : ℤ),
        generateHash content t1 = generateHash content t2 ↔ t1 / 3600 = t2 / 3600) ∧
      (st.queue = [] → isSilenced st = false → st.now - st.hourStart < 3600 →
        st.alertsSentThisHour < 50 → alertFiltered st a = false →
        isAlertSent st a.contentHash = false → b.contentHash = a.contentHash →
        a ∈ (processQueue (fun _ => true) (queueAlert st a)).sentLog ∧
          isAlertSent (processQueue (fun _ => true) (queueAlert st a)) b.contentHash = true ∧
          queueAlert (processQueue (fun _ => true) (queueAlert st a)) b =
            processQueue (fun _ => true) (queueAlert st a)) := by
  refine ⟨?_, ?_, ?_, ?_⟩
  · intro h
    unfold queueAlert
    split <;> try rfl
    all_goals
      rename_i hns
      exact absurd h hns
  · intro hf hs
    unfold queueAlert
    rw [if_neg (by simp [hf]), if_neg (by simp [hs])]
  · intro content t1 t2
    unfold generateHash
    constructor
    · intro h
      simpa using congrArg Prod.snd h
    · intro h
      rw [h]
  · intro h1 h2 h3 h4 h5 h6 h7
    have hqa : queueAlert st a = { st with queue := [a] } := by
      unfold queueAlert
      rw [if_neg (by simp [h5]), if_neg (by simp [h6]), h1]
      simp
    rw [hqa]
    have hps : processQueue (fun _ => true) { st with queue := [a] } =
        drainQueue (fun _ => true) ([a].mergeSort prioDesc) { st with queue := [] } := by
      unfold processQueue
      rw [if_neg (by simp)]
      rw [isSilenced_update_queue]
      rw [if_neg (by simp [h2])]
    rw [hps, List.mergeSort_singleton,
      drainQueue_true_eq [a] _ (by simpa using h3)]
    obtain ⟨m, hm⟩ : ∃ m, 50 - st.alertsSentThisHour = m + 1 := ⟨49 - st.alertsSentThisHour, by omega⟩
    simp only []
    rw [hm]
    simp only [List.take_succ_cons, List.take_nil, List.drop_succ_cons, List.drop_nil,
      List.map_cons, List.map_nil]
    refine ⟨by simp, by simp [isAlertSent, h7], ?_⟩
    unfold queueAlert
    split <;> try rfl
    all_goals simp [isAlertSent, h7]

/-- Witness for C5 on concrete states: dedup discard, eligibility of a
fresh fingerprint, hour-bucket separation of fingerprints, and the
queue-dispatch-requeue round trip on `w5State`. -/
theorem fingerprint_dedup_witness :
    queueAlert w5StateSent w5Alert = w5StateSent ∧
      queueAlert w5State w5Alert = { w5State with queue := [w5Alert] } ∧
      generateHash "k" 7200 ≠ generateHash "k" 0 ∧
      w5Alert ∈ (processQueue (fun _ => true) (queueAlert w5State w5Alert)).sentLog ∧
      queueAlert (processQueue (fun _ => true) (queueAlert w5State w5Alert)) w5Alert =
        processQueue (fun _ => true) (queueAlert w5State w5Alert) := by
  have h1 := fingerprint_dedup w5StateSent w5Alert w5Alert
  have h2 := fingerprint_dedup w5State w5Alert w5Alert
  have hrt := h2.2.2.2 rfl (by decide) (by decide) (by decide) (by decide) (by decide) rfl
  refine ⟨h1.1 (by decide), ?_, ?_, hrt.1, hrt.2.2⟩
  · have := h2.2.1 (by decide) (by decide)
    simpa using this
  · intro he
    have := (h2.2.2.1 "k" 7200 0).mp he
    revert this
    decide

end OpusDei
